import Mathlib

/-!
Verification development for the static-site generation pipeline
(scripts/create-site.js and scripts/lib/internalLinker.js).

Strings are modelled as `List Char` (JavaScript strings are sequences of
code units; all inputs of interest here are plain text). JavaScript
numbers appearing in the similarity score are modelled exactly in ℚ
(every quantity involved is a small integer or a ratio of such).
The stable `Array.prototype.sort` is modelled by a stable insertion sort.
The nondeterministic `Math.random` driving `shuffle` is modelled by an
explicit list of index choices supplied as an argument.
-/

/-- Coerce a Lean string literal to the `List Char` representation used
throughout this development. -/
def chars (x : String) : List Char := x.data

/-- Model of `String.prototype.indexOf(pat)` restricted to a search that
starts at the head of the list: returns the first index at which `pat`
occurs in `l`, or `none`. -/
def subIdx (pat : List Char) : List Char → Option Nat
  | [] => if List.isPrefixOf pat ([] : List Char) then some 0 else none
  | c :: t =>
      if List.isPrefixOf pat (c :: t) then some 0
      else Option.map (· + 1) (subIdx pat t)

/-- Model of `hay.indexOf(pat, start)` (for the non-empty patterns used by
the linker): search starting at position `start`. -/
def indexOfFrom (hay pat : List Char) (start : Nat) : Option Nat :=
  Option.map (· + start) (subIdx pat (hay.drop start))

/-- Model of `hay.includes(pat)`. -/
def includesList (hay pat : List Char) : Bool :=
  (subIdx pat hay).isSome

/-- Auxiliary loop of `nthIndexOf` from internalLinker.js: repeatedly call
`indexOf(needle, idx + 1)`, `n` times, propagating the not-found result. -/
def nthIndexAux (hay pat : List Char) : Nat → Nat → Option Nat
  | _, 0 => none
  | start, n + 1 =>
      match indexOfFrom hay pat start with
      | none => none
      | some i => if n = 0 then some i else nthIndexAux hay pat (i + 1) n

/-- `nthIndexOf(hay, needle, n)` from internalLinker.js: the index of the
`n`-th occurrence of `needle` (searching each time from one past the
previous hit), or `none` when there are fewer than `n` occurrences. -/
def nthIndexOf (hay pat : List Char) (n : Nat) : Option Nat :=
  nthIndexAux hay pat 0 n

/-- True for the characters kept by the normalisation regex
`[^a-z0-9]+` of internalLinker.js (after lower-casing). -/
def isLowerAlnum (c : Char) : Bool :=
  (decide ('a' ≤ c) && decide (c ≤ 'z')) || (decide ('0' ≤ c) && decide (c ≤ '9'))

mutual

/-- `replace(/[^a-z0-9]+/g, ' ')`: each maximal run of characters that are
not lower-case alphanumerics is replaced by a single space. -/
def replRuns : List Char → List Char
  | [] => []
  | c :: rest =>
      if isLowerAlnum c then c :: replRuns rest
      else ' ' :: replRunsSkip rest

/-- State of `replRuns` inside a non-alphanumeric run (the run's remaining
characters are dropped; the single replacement space was already
emitted). -/
def replRunsSkip : List Char → List Char
  | [] => []
  | c :: rest =>
      if isLowerAlnum c then c :: replRuns rest
      else replRunsSkip rest

end

/-- `String.prototype.trim` on the output of `replRuns` (whose only
whitespace character is `' '`). -/
def trimSpaces (l : List Char) : List Char :=
  ((l.dropWhile (fun c => c == ' ')).reverse.dropWhile (fun c => c == ' ')).reverse

/-- `normalizeToken` from internalLinker.js: lower-case, replace runs of
non-alphanumerics by a single space, trim. (Lower-casing is modelled on
the ASCII range, which is the only range the subsequent filter keeps.) -/
def normalizeToken (x : List Char) : List Char :=
  trimSpaces (replRuns (x.map Char.toLower))

/-- Split into maximal runs of non-space characters, dropping empty
pieces: the composition `.split(/\s+/).filter(Boolean)` applied to a
normalised string. -/
def wordsAux : List Char → List Char → List (List Char)
  | [], acc => if acc = [] then [] else [acc.reverse]
  | c :: rest, acc =>
      if c == ' ' then
        (if acc = [] then wordsAux rest [] else acc.reverse :: wordsAux rest [])
      else wordsAux rest (c :: acc)

/-- `tokenize` from internalLinker.js. -/
def tokenize (x : List Char) : List (List Char) :=
  wordsAux (normalizeToken x) []

/-- Frontmatter value: the generator only ever writes string values and
one array-of-strings value (`keywords`). -/
inductive FmVal where
  | str (v : List Char)
  | arr (vs : List (List Char))
deriving DecidableEq

/-- A parsed post, as read by `applyInternalLinks` (gray-matter parse of
an .mdx file that carries a `slug`): the frontmatter fields the linker
uses, the raw body `content`, and the full frontmatter `data` that is
passed back to the serializer on write. -/
structure Post where
  slug : List Char
  title : List Char
  cluster : List Char
  keywords : List (List Char)
  content : List Char
  data : List (String × FmVal)
deriving DecidableEq

/-- The token set built by `similarity` for one side: the normalised
keywords together with the tokenised title, as a set (JavaScript `Set`). -/
def tokensOf (keywords : List (List Char)) (title : List Char) : Finset (List Char) :=
  ((keywords.map normalizeToken) ++ tokenize title).toFinset

/-- `inter` of `similarity`: the number of shared tokens. -/
def simInter (a b : Post) : Nat :=
  ((tokensOf a.keywords a.title) ∩ (tokensOf b.keywords b.title)).card

/-- `denom` of `similarity`: `Math.max(1, A.size + B.size - inter)`. -/
def simDenom (a b : Post) : Nat :=
  max 1 ((tokensOf a.keywords a.title).card + (tokensOf b.keywords b.title).card - simInter a b)

/-- `similarity` from internalLinker.js, valued exactly in ℚ. -/
def similarity (a b : Post) : ℚ :=
  (simInter a b : ℚ) / (simDenom a b : ℚ)

/-- Insert `x` into `l` keeping elements related by `le` in order; a step
of the stable insertion sort modelling `Array.prototype.sort`. -/
def insertLe (le : α → α → Bool) (x : α) : List α → List α
  | [] => [x]
  | y :: ys => if le x y then x :: y :: ys else y :: insertLe le x ys

/-- Stable sort by the boolean relation `le`: the denotation of
JavaScript's stable `Array.prototype.sort` under a consistent
comparator. -/
def sortLe (le : α → α → Bool) : List α → List α
  | [] => []
  | x :: xs => insertLe le x (sortLe le xs)

/-- Lexicographic order on strings, modelling the slug comparator
`a.slug.localeCompare(b.slug)` (slugs are plain lower-case ASCII, where
the locale collation agrees with code-unit order). -/
def lexLe : List Char → List Char → Bool
  | [], _ => true
  | _ :: _, [] => false
  | a :: as, b :: bs => if a = b then lexLe as bs else decide (a < b)

/-- Start marker shared by the early and end related blocks (both are
rendered by `blockWithLinks`). -/
def earlyMarker : List Char := chars "<!-- AUTOLINK-EARLY START -->"

/-- End marker of `blockWithLinks`. -/
def earlyEndMarker : List Char := chars "<!-- AUTOLINK-EARLY END -->"

/-- Start marker of the prev/next navigation block. -/
def navMarker : List Char := chars "<!-- AUTOLINK-NAV START -->"

/-- End marker of the prev/next navigation block. -/
def navEndMarker : List Char := chars "<!-- AUTOLINK-NAV END -->"

/-- `blockWithLinks(title, items)` from internalLinker.js. -/
def blockWithLinks (title : List Char) (items : List Post) : List Char :=
  if items = [] then []
  else
    let links := List.intercalate (chars "\n")
      (items.map (fun p => chars "- [" ++ p.title ++ chars "](/" ++ p.slug ++ chars "/)"))
    chars "\n\n" ++ earlyMarker ++ chars "\n\n### " ++ title ++ chars "\n\n" ++
      links ++ chars "\n\n" ++ earlyEndMarker ++ chars "\n"

/-- The `parts` array of `prevNextBlock`: a link for `prev` when
present, then a link for `next` when present. -/
def navParts (prev next : Option Post) : List (List Char) :=
  (match prev with
    | some p => [chars "[← " ++ p.title ++ chars "](/" ++ p.slug ++ chars "/)"]
    | none => []) ++
  (match next with
    | some p => [chars "[" ++ p.title ++ chars " →](/" ++ p.slug ++ chars "/)"]
    | none => [])

/-- Rendering of `prevNextBlock` from its `parts` array: empty when
there are no parts, otherwise the marker-wrapped separator-joined
links. -/
def renderNav (parts : List (List Char)) : List Char :=
  if parts = [] then []
  else chars "\n\n" ++ navMarker ++ chars "\n\n---\n\n" ++
    List.intercalate (chars " | ") parts ++ chars "\n\n" ++ navEndMarker ++ chars "\n"

/-- `prevNextBlock(prev, next)` from internalLinker.js. -/
def prevNextBlock (prev next : Option Post) : List Char :=
  renderNav (navParts prev next)

/-- The heading needle `"\n## "` used to locate the second H2. -/
def h2pat : List Char := chars "\n## "

/-- The single newline needle. -/
def nlpat : List Char := chars "\n"

/-- Third step of `insertBlocks`: append the nav block at the very end
unless its marker is already present. -/
def navStep (o nav : List Char) : List Char :=
  if nav = [] then o
  else if includesList o navMarker then o
  else o ++ nav

/-- First step of `insertBlocks`: insert the early block after the
second `"\n## "` occurrence, at the next newline, unless the early
marker is already present or there is no second occurrence. When the
heading line is not newline-terminated, JavaScript `indexOf` returns -1
and `slice(0, -1)`/`slice(-1)` split off the final character. -/
def earlyStep (content e : List Char) : List Char :=
  if e = [] then content
  else
    match nthIndexOf content h2pat 2 with
    | none => content
    | some idx =>
        if includesList content earlyMarker then content
        else
          match indexOfFrom content nlpat (idx + 1) with
          | some j => content.take j ++ e ++ content.drop j
          | none =>
              content.take (content.length - 1) ++ e ++
                content.drop (content.length - 1)

/-- Second step of `insertBlocks`: append the end related block, but
only when the early marker is absent from the current body. -/
def endStep (o en : List Char) : List Char :=
  if en = [] then o
  else if includesList o earlyMarker then o
  else o ++ en

/-- `insertBlocks(content, earlyBlock, endBlock, navBlock)` from
internalLinker.js: the three guarded mutations in source order. -/
def insertBlocks (content e en nav : List Char) : List Char :=
  navStep (endStep (earlyStep content e) en) nav

/-- The same-cluster peers of `post`: the cluster's list (file order)
without `post` itself, as computed by `byCluster` plus the slug filter. -/
def clusterPeers (posts : List Post) (post : Post) : List Post :=
  (posts.filter (fun p => p.cluster == post.cluster)).filter
    (fun p => !(p.slug == post.slug))

/-- Peers ranked by descending similarity to `post` (stable, mirroring
`.map(score).sort((a, b) => b.score - a.score).map(x => x.p)`). -/
def rankedOf (peers : List Post) (post : Post) : List Post :=
  (sortLe (fun x y => decide (y.2 ≤ x.2))
      (peers.map (fun p => (p, similarity post p)))).map (fun x => x.1)

/-- The cluster ordered by slug: `[...clusterPosts, post].sort(bySlug)`. -/
def sortedCluster (peers : List Post) (post : Post) : List Post :=
  sortLe (fun a b => lexLe a.slug b.slug) (peers ++ [post])

/-- prev/next of `post` inside its slug-sorted cluster, as computed by
`applyInternalLinks` (`findIndex` on the slug, then the immediate
neighbours, absent at the boundaries). -/
def prevNextOf (peers : List Post) (post : Post) : Option Post × Option Post :=
  let sorted := sortedCluster peers post
  let idx := sorted.findIdx (fun x => x.slug == post.slug)
  (if 0 < idx then sorted[idx - 1]? else none,
   if idx < sorted.length - 1 then sorted[idx + 1]? else none)

/-- The new body of `post` produced by one run of `applyInternalLinks`:
unchanged when the post has no same-cluster peers, otherwise
`insertBlocks` applied to the three rendered blocks. -/
def updateContent (posts : List Post) (post : Post) : List Char :=
  let peers := clusterPeers posts post
  if peers = [] then post.content
  else
    let ranked := rankedOf peers post
    let early := ranked.take 2
    let endSel := (ranked.drop 2).take 3
    let endItems := if endSel = [] then ranked.take 3 else endSel
    let pn := prevNextOf peers post
    insertBlocks post.content
      (blockWithLinks (chars "You might also like") early)
      (blockWithLinks (chars "More in " ++ post.cluster) endItems)
      (prevNextBlock pn.1 pn.2)

/-- The per-post effect of the pass (the file's parsed frontmatter is
passed through unchanged; only the body is rewritten). -/
def passContent (posts : List Post) (post : Post) : Post :=
  { post with content := updateContent posts post }

/-- One run of `applyInternalLinks` over the parsed document set: every
post's body is recomputed against the snapshot read at the start of the
run (the JavaScript loop reads all files before mutating any of them,
and mutations are not re-read within a run). -/
def applyInternalLinks (posts : List Post) : List Post :=
  posts.map (passContent posts)

/-- A cluster of the generated site plan: `{ cluster: string,
keywords: string[] }` (a missing/malformed keyword array is read as `[]`
by `cluster.keywords || []`). -/
structure PlanCluster where
  cluster : String
  keywords : List String
deriving DecidableEq

/-- A generation task: one `(cluster, keyword)` pair. -/
structure GenTask where
  cluster : String
  keyword : String
deriving DecidableEq

/-- `allTasks` of `main` in create-site.js: iterate clusters in plan
order and keywords in listed order. -/
def planTasks (plan : List PlanCluster) : List GenTask :=
  plan.flatMap (fun c => c.keywords.map (fun k => ⟨c.cluster, k⟩))

/-- `targetTasks = allTasks.slice(0, maxPosts)`. -/
def targetTasks (plan : List PlanCluster) (maxPosts : Nat) : List GenTask :=
  (planTasks plan).take maxPosts

/-- Number of tasks contributed by the clusters before index `ci`; the
flattened position of cluster `ci`'s first keyword. -/
def clusterOffset (plan : List PlanCluster) (ci : Nat) : Nat :=
  ((plan.take ci).map (fun c => c.keywords.length)).sum

/-- The literal `"\n\n"` joining part 1 and part 2. -/
def nl2 : List Char := chars "\n\n"

/-- The continuity context passed to content part 3 in `processBatch`:
`` `${part1}\n\n${part2}`.slice(0, 6000) `` — the first 6000 characters
of the joined parts. -/
def contextForPart3 (part1 part2 : List Char) : List Char :=
  (part1 ++ nl2 ++ part2).take 6000

/-- The window the specification describes instead: the LAST `n`
characters of a string (suffix window retaining the most recent text).
Stated from the spec's words for comparison with `contextForPart3`. -/
def lastWindow (n : Nat) (l : List Char) : List Char :=
  l.drop (l.length - n)

/-- `JSON.stringify` of a string value, for the character range the
generator emits (quote, with backslash/quote/newline escapes). -/
def jsonQuote (v : List Char) : List Char :=
  ['"'] ++ (v.flatMap (fun c =>
    if c = '"' then ['\\', '"']
    else if c = '\\' then ['\\', '\\']
    else if c = '\n' then ['\\', 'n']
    else [c])) ++ ['"']

/-- `stringifyFrontmatter` from create-site.js: JSON-style values, one
`key: value` line per entry, wrapped in `---` fences. -/
def stringifyFrontmatter (obj : List (String × FmVal)) : List Char :=
  chars "---\n" ++
  List.intercalate (chars "\n")
    (obj.map (fun kv =>
      match kv.2 with
      | .str v => chars kv.1 ++ chars ": " ++ jsonQuote v
      | .arr vs =>
          chars kv.1 ++ chars ": [" ++
            List.intercalate (chars ", ") (vs.map jsonQuote) ++ chars "]")) ++
  chars "\n---"

/-- Whether the external YAML dumper may write the string as a plain
(unquoted) scalar: conservative model — non-empty, starts with an ASCII
letter, and contains only letters, digits, spaces and hyphens. -/
def yamlPlainSafe (v : List Char) : Bool :=
  match v with
  | [] => false
  | c :: _ =>
      ((decide ('a' ≤ c) && decide (c ≤ 'z')) || (decide ('A' ≤ c) && decide (c ≤ 'Z'))) &&
      v.all (fun d =>
        (decide ('a' ≤ d) && decide (d ≤ 'z')) || (decide ('A' ≤ d) && decide (d ≤ 'Z')) ||
        (decide ('0' ≤ d) && decide (d ≤ '9')) || (d == ' ') || (d == '-'))

/-- Scalar rendering of the external YAML dumper: plain when safe,
single-quoted otherwise. -/
def yamlScalar (v : List Char) : List Char :=
  if yamlPlainSafe v then v else ['\''] ++ v ++ ['\'']

/-- One frontmatter entry as rendered by the external YAML dumper:
`key: scalar` for strings, a block sequence for arrays. -/
def yamlEntry (kv : String × FmVal) : List Char :=
  match kv.2 with
  | .str v => chars kv.1 ++ chars ": " ++ yamlScalar v ++ chars "\n"
  | .arr vs =>
      chars kv.1 ++ chars ":\n" ++
        (vs.flatMap (fun v => chars "  - " ++ yamlScalar v ++ chars "\n"))

/-- The frontmatter header produced by the external serializer. -/
def yamlHeader (data : List (String × FmVal)) : List Char :=
  chars "---\n" ++ data.flatMap yamlEntry ++ chars "---\n"

/-- Model of the external serializer used on write-back by
`applyInternalLinks` (`matter.stringify(updated, post.data)`:
gray-matter with the js-yaml default dumper): the parsed data re-dumped
as YAML between `---` fences, followed by the body with a guaranteed
trailing newline. -/
def matterStringify (content : List Char) (data : List (String × FmVal)) : List Char :=
  yamlHeader data ++ content ++
    (if content ≠ [] ∧ content.getLast? = some '\n' then [] else chars "\n")

/-- The bytes of `post`'s file after the link pass: untouched when the
post has no same-cluster peers (no write happens), otherwise the
re-serialized frontmatter followed by the updated body
(internalLinker.js lines 55-57). -/
def fileAfterLinkPass (posts : List Post) (post : Post) (orig : List Char) : List Char :=
  if clusterPeers posts post = [] then orig
  else matterStringify (updateContent posts post) post.data

/-- A post meta record collected by `processBatch` for the related-links
pass (`{ slug, title, cluster, mdxFilePath }`; the path plays no role in
the body transformation). -/
structure Meta where
  slug : List Char
  title : List Char
deriving DecidableEq

/-- The `"Related in <cluster>"` block appended by `addRelatedLinks`
(create-site.js): note it carries no idempotence marker. -/
def relatedBlock (cluster : List Char) (picks : List Meta) : List Char :=
  chars "\n\n---\n\n### Related in " ++ cluster ++ chars "\n\n" ++
    List.intercalate (chars "\n")
      (picks.map (fun p => chars "- [" ++ p.title ++ chars "](/" ++ p.slug ++ chars "/)")) ++
    chars "\n"

/-- Swap two positions of a list (no-op when out of bounds), the
`[a[i], a[j]] = [a[j], a[i]]` step of `shuffle`. -/
def swapIdx (l : List α) (i j : Nat) : List α :=
  match l[i]?, l[j]? with
  | some a, some b => (l.set i b).set j a
  | _, _ => l

/-- Fisher-Yates loop of `shuffle` with the random draws made explicit:
at index `i + 1` the draw `j` is reduced into `0..i+1` exactly as
`Math.floor(Math.random() * (i + 2))` ranges there. -/
def shuffleAux (a : List α) (js : List Nat) : Nat → List α
  | 0 => a
  | i + 1 => shuffleAux (swapIdx a (i + 1) (js.headD 0 % (i + 2))) js.tail i

/-- `shuffle(arr)` from create-site.js, driven by the explicit draw list
`js`. -/
def shuffleJS (arr : List α) (js : List Nat) : List α :=
  shuffleAux arr js (arr.length - 1)

/-- Per-document body of the inner loop of `addRelatedLinks`: sample up
to three same-cluster peers and append the related block — read the file
and write `original + block`, with no marker guard. `others` is the
cluster's meta list without the document itself. -/
def addRelatedLinksDoc (cluster : List Char) (others : List Meta) (js : List Nat)
    (content : List Char) : List Char :=
  let picks := (shuffleJS others js).take 3
  if picks = [] then content
  else content ++ relatedBlock cluster picks

/-- Phase of one `run` caller of the Semaphore (internalLinker.js):
`idle` before calling, `waiting` after pushing a resolver into the
queue, `woken` once a releaser resolved it (its continuation is pending
on the microtask queue), `running` while its body executes between
`count++` and the `finally`, `done` afterwards. -/
inductive SPhase where
  | idle
  | waiting
  | woken
  | running
  | done
deriving DecidableEq

/-- State of the Semaphore together with its callers. -/
structure SemSt where
  maxSlots : Nat
  count : Nat
  queue : List Nat
  phases : List SPhase
deriving DecidableEq

/-- Scheduler events: `start t` = task `t` calls `run` (the synchronous
check-then-increment-or-enqueue); `finish t` = `t`'s body completes (the
`finally`: decrement and resolve the first queued waiter); `resume t` =
the woken waiter's continuation runs (increment and enter the body
without re-checking the count). -/
inductive SemEv where
  | start (t : Nat)
  | finish (t : Nat)
  | resume (t : Nat)
deriving DecidableEq

/-- Phase of task `t`. -/
def phaseOf (s : SemSt) (t : Nat) : SPhase :=
  s.phases.getD t SPhase.done

/-- One scheduler step of the Semaphore model; events whose precondition
does not hold are no-ops. -/
def semStep (s : SemSt) (e : SemEv) : SemSt :=
  match e with
  | .start t =>
      if phaseOf s t = SPhase.idle then
        if s.maxSlots ≤ s.count then
          { s with queue := s.queue ++ [t], phases := s.phases.set t SPhase.waiting }
        else
          { s with count := s.count + 1, phases := s.phases.set t SPhase.running }
      else s
  | .finish t =>
      if phaseOf s t = SPhase.running then
        match s.queue with
        | [] => { s with count := s.count - 1, phases := s.phases.set t SPhase.done }
        | n :: rest =>
            { s with
              count := s.count - 1
              queue := rest
              phases := (s.phases.set t SPhase.done).set n SPhase.woken }
      else s
  | .resume t =>
      if phaseOf s t = SPhase.woken then
        { s with count := s.count + 1, phases := s.phases.set t SPhase.running }
      else s

/-- Run a schedule from the initial state: `n` idle callers, an empty
queue, a zero count and the configured `max`. -/
def semRun (maxSlots n : Nat) (evs : List SemEv) : SemSt :=
  evs.foldl semStep ⟨maxSlots, 0, [], List.replicate n SPhase.idle⟩

/-- Number of callers currently executing their passed-in body. -/
def bodiesRunning (s : SemSt) : Nat :=
  s.phases.countP (fun p => p == SPhase.running)

/-- The overshoot schedule: A acquires; B queues; A finishes (waking B);
C calls `run` before B's wake-up microtask executes; B resumes. This
interleaving is realisable on the JavaScript event loop: C's call only
has to be scheduled from a microtask that was already enqueued when A's
release continuation ran. -/
def overshootSched : List SemEv :=
  [.start 0, .start 1, .finish 0, .start 2, .resume 1]

/-- Counterexample document for the early-insertion placement: its
second `"\n## "` occurrence starts an unterminated final heading line. -/
def cexPostA : Post :=
  { slug := chars "a", title := chars "A", cluster := chars "c",
    keywords := [], content := chars "x\n## A\n## B", data := [] }

/-- Same-cluster peer of `cexPostA`. -/
def cexPostB : Post :=
  { slug := chars "b", title := chars "B", cluster := chars "c",
    keywords := [], content := chars "y", data := [] }

/-- The two-post document set of the placement counterexample. -/
def cexPosts : List Post := [cexPostA, cexPostB]

/-- Witness document for the amended insertion statement: two `"\n## "`
occurrences, the second heading line newline-terminated at index 11. -/
def wContent : List Char := chars "a\n## B\n## C\nd"

/-- Witness early block (a rendered `blockWithLinks`, so it carries the
early marker). -/
def wE : List Char := blockWithLinks (chars "t") [cexPostB]

/-- Witness end block. -/
def wEn : List Char := blockWithLinks (chars "u") [cexPostB]

/-- Witness nav block. -/
def wNav : List Char := prevNextBlock none (some cexPostB)

/-- Cluster member with slug `alpha` (prev/next example). -/
def alphaPost : Post :=
  { slug := chars "alpha", title := chars "Alpha", cluster := chars "c",
    keywords := [], content := [], data := [] }

/-- Cluster member with slug `beta` (prev/next example). -/
def betaPost : Post :=
  { slug := chars "beta", title := chars "Beta", cluster := chars "c",
    keywords := [], content := [], data := [] }

/-- Cluster member with slug `gamma` (prev/next example). -/
def gammaPost : Post :=
  { slug := chars "gamma", title := chars "Gamma", cluster := chars "c",
    keywords := [], content := [], data := [] }

/-- Frontmatter of the header-preservation counterexample: entries whose
JSON-style rendering (`title: "Cat Toys"`) differs from the external
dumper's plain-style rendering (`title: Cat Toys`). -/
def fmCex : List (String × FmVal) :=
  [("title", FmVal.str (chars "Cat Toys")), ("slug", FmVal.str (chars "a"))]

/-- Post whose file the header-preservation counterexample tracks. -/
def c7PostA : Post :=
  { slug := chars "a", title := chars "Cat Toys", cluster := chars "c",
    keywords := [], content := chars "body\n", data := fmCex }

/-- Same-cluster peer forcing a write-back of `c7PostA`. -/
def c7PostB : Post :=
  { slug := chars "b", title := chars "B", cluster := chars "c",
    keywords := [], content := chars "peer\n", data := [] }

/-- Document set of the header-preservation counterexample. -/
def c7Posts : List Post := [c7PostA, c7PostB]

/-- File bytes of `c7PostA` as the Assembler wrote them: the JSON-style
header, then body content. -/
def c7Orig : List Char := stringifyFrontmatter fmCex ++ chars "\nbody\n"

/-- Peer meta of the related-links counterexample. -/
def cexMeta : Meta := { slug := chars "b", title := chars "B" }

/-- Part 1 of the continuity-context counterexample: 6000 characters, so
the joined parts exceed the cap and the two truncation directions
disagree. -/
def cexPart1 : List Char := List.replicate 6000 'a'

/-- Part 2 of the continuity-context counterexample. -/
def cexPart2 : List Char := ['b']

/-- Concrete plan of the task-planner witness. -/
def wPlan : List PlanCluster :=
  [{ cluster := "c1", keywords := ["k1", "k2"] },
   { cluster := "c2", keywords := ["k3"] }]

/-! ## String-matching lemmas -/

theorem isPrefixOf_iff_ex :
    ∀ p l : List Char, List.isPrefixOf p l = true ↔ ∃ t, p ++ t = l := by
  intro p
  induction p with
  | nil =>
      intro l
      simp [List.isPrefixOf]
  | cons a as ih =>
      intro l
      cases l with
      | nil => simp [List.isPrefixOf]
      | cons b bs =>
          simp only [List.isPrefixOf, Bool.and_eq_true, beq_iff_eq, ih,
            List.cons_append, List.cons.injEq]
          constructor
          · rintro ⟨hab, t, ht⟩
            exact ⟨t, hab, ht⟩
          · rintro ⟨t, hab, ht⟩
            exact ⟨hab, t, ht⟩

theorem subIdx_isSome_iff :
    ∀ (l pat : List Char), (subIdx pat l).isSome = true ↔ ∃ a b, l = a ++ (pat ++ b) := by
  intro l pat
  induction l with
  | nil =>
      cases pat with
      | nil => simp [subIdx, List.isPrefixOf]
      | cons p ps =>
          simp [subIdx, List.isPrefixOf, List.append_eq_nil]
  | cons c t ih =>
      by_cases hp : List.isPrefixOf pat (c :: t) = true
      · rcases (isPrefixOf_iff_ex pat (c :: t)).1 hp with ⟨r, hr⟩
        constructor
        · intro _
          exact ⟨[], r, by simp [hr]⟩
        · intro _
          simp [subIdx, hp]
      · have hred : subIdx pat (c :: t) = Option.map (· + 1) (subIdx pat t) := by
          simp [subIdx, hp]
        constructor
        · intro h
          have ht : (subIdx pat t).isSome = true := by
            cases hs : subIdx pat t with
            | none => rw [hred, hs] at h; simp [Option.map] at h
            | some v => rfl
          rcases ih.1 ht with ⟨a, b, hab⟩
          exact ⟨c :: a, b, by simp [hab]⟩
        · rintro ⟨a, b, hab⟩
          cases a with
          | nil =>
              exact absurd ((isPrefixOf_iff_ex pat (c :: t)).2
                ⟨b, by simpa using hab.symm⟩) hp
          | cons a0 as =>
              have hab2 : t = as ++ (pat ++ b) := by
                simp only [List.cons_append, List.cons.injEq] at hab
                exact hab.2
              have hts : (subIdx pat t).isSome = true := ih.2 ⟨as, b, hab2⟩
              rw [hred]
              cases hs : subIdx pat t with
              | none => rw [hs] at hts; simp at hts
              | some v => simp [hs, Option.map]

theorem includes_iff_ex (hay pat : List Char) :
    includesList hay pat = true ↔ ∃ a b, hay = a ++ (pat ++ b) := by
  unfold includesList
  exact subIdx_isSome_iff hay pat

theorem includes_of_parts (hay pat a b : List Char) (h : hay = a ++ (pat ++ b)) :
    includesList hay pat = true :=
  (includes_iff_ex hay pat).2 ⟨a, b, h⟩

theorem includes_append_right (h t pat : List Char)
    (hi : includesList t pat = true) : includesList (h ++ t) pat = true := by
  rcases (includes_iff_ex t pat).1 hi with ⟨a, b, hab⟩
  exact includes_of_parts _ _ (h ++ a) b (by simp [hab])

theorem includes_append_left (h t pat : List Char)
    (hi : includesList h pat = true) : includesList (h ++ t) pat = true := by
  rcases (includes_iff_ex h pat).1 hi with ⟨a, b, hab⟩
  exact includes_of_parts _ _ a (b ++ t) (by simp [hab])

theorem includes_insert_mid (a m b pat : List Char)
    (hi : includesList m pat = true) : includesList (a ++ m ++ b) pat = true :=
  includes_append_left _ _ _ (includes_append_right _ _ _ hi)

theorem ne_nil_of_includes (l pat : List Char) (hp : pat ≠ [])
    (hi : includesList l pat = true) : l ≠ [] := by
  rcases (includes_iff_ex l pat).1 hi with ⟨a, b, hab⟩
  intro hl
  rw [hl] at hab
  rcases List.append_eq_nil.1 hab.symm with ⟨_, h2⟩
  exact hp (List.append_eq_nil.1 h2).1

theorem earlyMarker_ne_nil : earlyMarker ≠ [] := by decide

theorem navMarker_ne_nil : navMarker ≠ [] := by decide

/-! ## insertBlocks lemmas -/

theorem earlyStep_skip (c e : List Char)
    (h : includesList c earlyMarker = true) : earlyStep c e = c := by
  unfold earlyStep
  by_cases he : e = []
  · simp [he]
  · simp only [he, if_false]
    cases hn : nthIndexOf c h2pat 2 with
    | none => rfl
    | some idx => simp [h]

theorem endStep_skip (o en : List Char)
    (h : includesList o earlyMarker = true) : endStep o en = o := by
  unfold endStep
  by_cases he : en = []
  · simp [he]
  · simp [he, h]

theorem navStep_skip (o nav : List Char)
    (h : includesList o navMarker = true) : navStep o nav = o := by
  unfold navStep
  by_cases hn : nav = []
  · simp [hn]
  · simp [hn, h]

theorem insertBlocks_skip (c e en nav : List Char)
    (h1 : includesList c earlyMarker = true)
    (h2 : includesList c navMarker = true) :
    insertBlocks c e en nav = c := by
  unfold insertBlocks
  rw [earlyStep_skip c e h1, endStep_skip c en h1, navStep_skip c nav h2]

theorem endStep_marker (o en : List Char) (hen : en ≠ [])
    (henm : includesList en earlyMarker = true) :
    includesList (endStep o en) earlyMarker = true := by
  unfold endStep
  simp only [hen, if_false]
  by_cases ho : includesList o earlyMarker = true
  · simp [ho]
  · simp only [ho, if_false]
    exact includes_append_right _ _ _ henm

theorem navStep_marker (o nav : List Char) (hnav : nav ≠ [])
    (hnm : includesList nav navMarker = true) :
    includesList (navStep o nav) navMarker = true := by
  unfold navStep
  simp only [hnav, if_false]
  by_cases ho : includesList o navMarker = true
  · simp [ho]
  · simp only [ho, if_false]
    exact includes_append_right _ _ _ hnm

theorem navStep_preserves (o nav pat : List Char)
    (h : includesList o pat = true) :
    includesList (navStep o nav) pat = true := by
  unfold navStep
  by_cases hn : nav = []
  · simpa [hn]
  · by_cases ho : includesList o navMarker = true
    · simpa [hn, ho]
    · simp only [hn, ho, if_false]
      exact includes_append_left _ _ _ h

theorem insertBlocks_markers (c e en nav : List Char)
    (hen : en ≠ []) (henm : includesList en earlyMarker = true)
    (hnav : nav ≠ []) (hnm : includesList nav navMarker = true) :
    includesList (insertBlocks c e en nav) earlyMarker = true ∧
      includesList (insertBlocks c e en nav) navMarker = true := by
  unfold insertBlocks
  constructor
  · exact navStep_preserves _ _ _ (endStep_marker _ _ hen henm)
  · exact navStep_marker _ _ hnav hnm

/-! ## Sorting lemmas -/

theorem insertLe_perm (le : α → α → Bool) (x : α) :
    ∀ l : List α, List.Perm (insertLe le x l) (x :: l) := by
  intro l
  induction l with
  | nil => simp [insertLe]
  | cons y ys ih =>
      unfold insertLe
      by_cases h : le x y = true
      · simp [h]
      · simp only [h, if_false]
        exact (List.Perm.cons y ih).trans (List.Perm.swap x y ys)

theorem sortLe_perm (le : α → α → Bool) :
    ∀ l : List α, List.Perm (sortLe le l) l := by
  intro l
  induction l with
  | nil => simp [sortLe]
  | cons x xs ih =>
      unfold sortLe
      exact (insertLe_perm le x (sortLe le xs)).trans (List.Perm.cons x ih)

theorem sortLe_length (le : α → α → Bool) (l : List α) :
    (sortLe le l).length = l.length :=
  (sortLe_perm le l).length_eq

theorem insertLe_mem (le : α → α → Bool) (x a : α) (l : List α) :
    a ∈ insertLe le x l ↔ a = x ∨ a ∈ l := by
  rw [(insertLe_perm le x l).mem_iff]
  simp

theorem insertLe_pairwise (le : α → α → Bool)
    (htr : ∀ a b c, le a b = true → le b c = true → le a c = true)
    (hto : ∀ a b, le a b = true ∨ le b a = true)
    (x : α) :
    ∀ l : List α, List.Pairwise (fun a b => le a b = true) l →
      List.Pairwise (fun a b => le a b = true) (insertLe le x l) := by
  intro l
  induction l with
  | nil =>
      intro _
      simp [insertLe]
  | cons y ys ih =>
      intro hp
      rcases List.pairwise_cons.1 hp with ⟨hy, hys⟩
      unfold insertLe
      by_cases h : le x y = true
      · simp only [h, if_true]
        refine List.pairwise_cons.2 ⟨?_, hp⟩
        intro z hz
        rcases List.mem_cons.1 hz with hzy | hzys
        · rw [hzy]; exact h
        · exact htr x y z h (hy z hzys)
      · simp only [h, if_false]
        refine List.pairwise_cons.2 ⟨?_, ih hys⟩
        intro z hz
        rcases (insertLe_mem le x z ys).1 hz with hzx | hzys
        · rw [hzx]
          rcases hto x y with hxy | hyx
          · exact absurd hxy h
          · exact hyx
        · exact hy z hzys

theorem sortLe_pairwise (le : α → α → Bool)
    (htr : ∀ a b c, le a b = true → le b c = true → le a c = true)
    (hto : ∀ a b, le a b = true ∨ le b a = true) :
    ∀ l : List α, List.Pairwise (fun a b => le a b = true) (sortLe le l) := by
  intro l
  induction l with
  | nil => simp [sortLe]
  | cons x xs ih =>
      unfold sortLe
      exact insertLe_pairwise le htr hto x (sortLe le xs) ih

theorem lexLe_trans :
    ∀ a b c : List Char, lexLe a b = true → lexLe b c = true → lexLe a c = true := by
  intro a
  induction a with
  | nil =>
      intro b c _ _
      rfl
  | cons x xs ih =>
      intro b c hab hbc
      cases b with
      | nil => simp [lexLe] at hab
      | cons y ys =>
          cases c with
          | nil => simp [lexLe] at hbc
          | cons z zs =>
              unfold lexLe at hab hbc ⊢
              by_cases hxy : x = y
              · subst hxy
                by_cases hyz : x = z
                · subst hyz
                  simp only [if_pos rfl] at hab hbc ⊢
                  exact ih ys zs hab hbc
                · simp only [if_pos rfl] at hab
                  simp only [hyz, if_neg] at hbc ⊢
                  exact hbc
              · by_cases hyz : y = z
                · subst hyz
                  simp only [hxy, if_neg] at hab ⊢
                  exact hab
                · simp only [hxy, hyz, if_neg] at hab hbc
                  have hxz : x < z := lt_trans (of_decide_eq_true hab) (of_decide_eq_true hbc)
                  have hxzne : x ≠ z := ne_of_lt hxz
                  simp only [hxzne, if_neg]
                  exact decide_eq_true hxz

theorem lexLe_total :
    ∀ a b : List Char, lexLe a b = true ∨ lexLe b a = true := by
  intro a
  induction a with
  | nil =>
      intro b
      left
      rfl
  | cons x xs ih =>
      intro b
      cases b with
      | nil =>
          right
          rfl
      | cons y ys =>
          unfold lexLe
          by_cases hxy : x = y
          · subst hxy
            simp only [if_pos rfl]
            exact ih ys
          · have hyx : y ≠ x := fun h => hxy h.symm
            simp only [hxy, hyx, if_neg]
            rcases lt_or_gt_of_ne hxy with h | h
            · left; exact decide_eq_true h
            · right; exact decide_eq_true h

/-! ## Block-rendering lemmas -/

theorem blockWithLinks_props (title : List Char) (items : List Post)
    (h : items ≠ []) :
    includesList (blockWithLinks title items) earlyMarker = true ∧
      blockWithLinks title items ≠ [] := by
  have hinc : includesList (blockWithLinks title items) earlyMarker = true := by
    unfold blockWithLinks
    simp only [h, if_false]
    apply includes_of_parts _ _ (chars "\n\n")
      (chars "\n\n### " ++ title ++ chars "\n\n" ++
        List.intercalate (chars "\n")
          (items.map (fun p =>
            chars "- [" ++ p.title ++ chars "](/" ++ p.slug ++ chars "/)")) ++
        chars "\n\n" ++ earlyEndMarker ++ chars "\n")
    simp [List.append_assoc]
  exact ⟨hinc, ne_nil_of_includes _ _ earlyMarker_ne_nil hinc⟩

theorem renderNav_props (parts : List (List Char)) (h : parts ≠ []) :
    includesList (renderNav parts) navMarker = true ∧ renderNav parts ≠ [] := by
  have hinc : includesList (renderNav parts) navMarker = true := by
    unfold renderNav
    simp only [h, if_false]
    apply includes_of_parts _ _ (chars "\n\n")
      (chars "\n\n---\n\n" ++ List.intercalate (chars " | ") parts ++
        chars "\n\n" ++ navEndMarker ++ chars "\n")
    simp [List.append_assoc]
  exact ⟨hinc, ne_nil_of_includes _ _ navMarker_ne_nil hinc⟩

theorem navParts_ne_nil (prev next : Option Post)
    (h : prev.isSome = true ∨ next.isSome = true) :
    navParts prev next ≠ [] := by
  unfold navParts
  rcases h with h | h
  · cases prev with
    | none => simp at h
    | some p => simp
  · cases next with
    | none => simp at h
    | some p =>
        cases prev with
        | none => simp
        | some q => simp

theorem prevNextBlock_props (prev next : Option Post)
    (h : prev.isSome = true ∨ next.isSome = true) :
    includesList (prevNextBlock prev next) navMarker = true ∧
      prevNextBlock prev next ≠ [] := by
  unfold prevNextBlock
  exact renderNav_props _ (navParts_ne_nil prev next h)

/-! ## The per-post update always leaves both markers when peers exist -/

theorem sortedCluster_length (peers : List Post) (post : Post) :
    (sortedCluster peers post).length = peers.length + 1 := by
  unfold sortedCluster
  rw [sortLe_length]
  simp

theorem mem_sortedCluster_self (peers : List Post) (post : Post) :
    post ∈ sortedCluster peers post := by
  unfold sortedCluster
  exact ((sortLe_perm _ _).mem_iff).2 (by simp)

theorem prevNextOf_some (peers : List Post) (post : Post) (h : peers ≠ []) :
    (prevNextOf peers post).1.isSome = true ∨
      (prevNextOf peers post).2.isSome = true := by
  have hlen : (sortedCluster peers post).length = peers.length + 1 :=
    sortedCluster_length peers post
  have hex : ∃ x ∈ sortedCluster peers post, (x.slug == post.slug) = true :=
    ⟨post, mem_sortedCluster_self peers post, by simp⟩
  have hidx := List.findIdx_lt_length_of_exists hex
  have hply : 0 < peers.length := List.length_pos.2 h
  simp only [prevNextOf]
  by_cases h0 : 0 < (sortedCluster peers post).findIdx (fun x => x.slug == post.slug)
  · left
    have hm1 :
        (sortedCluster peers post).findIdx (fun x => x.slug == post.slug) - 1 <
          (sortedCluster peers post).length := by omega
    simp [h0, List.getElem?_eq_getElem hm1]
  · right
    have hlt :
        (sortedCluster peers post).findIdx (fun x => x.slug == post.slug) <
          (sortedCluster peers post).length - 1 := by omega
    have hp1 :
        (sortedCluster peers post).findIdx (fun x => x.slug == post.slug) + 1 <
          (sortedCluster peers post).length := by omega
    simp [hlt, List.getElem?_eq_getElem hp1]

theorem rankedOf_length (peers : List Post) (post : Post) :
    (rankedOf peers post).length = peers.length := by
  unfold rankedOf
  rw [List.length_map, sortLe_length, List.length_map]

theorem rankedOf_ne_nil (peers : List Post) (post : Post) (h : peers ≠ []) :
    rankedOf peers post ≠ [] := by
  intro hnil
  have hlen := rankedOf_length peers post
  rw [hnil] at hlen
  simp at hlen
  have hpos := List.length_pos.2 h
  omega

theorem updateContent_markers (posts : List Post) (post : Post)
    (h : clusterPeers posts post ≠ []) :
    includesList (updateContent posts post) earlyMarker = true ∧
      includesList (updateContent posts post) navMarker = true := by
  have hrk : rankedOf (clusterPeers posts post) post ≠ [] :=
    rankedOf_ne_nil _ _ h
  have hend :
      (if ((rankedOf (clusterPeers posts post) post).drop 2).take 3 = []
        then (rankedOf (clusterPeers posts post) post).take 3
        else ((rankedOf (clusterPeers posts post) post).drop 2).take 3) ≠ [] := by
    by_cases hsel : ((rankedOf (clusterPeers posts post) post).drop 2).take 3 = []
    · simp only [hsel, if_true]
      intro htk
      rcases List.take_eq_nil_iff.1 htk with h3 | h3
      · exact absurd h3 (by omega)
      · exact hrk h3
    · simp only [hsel, if_false]
      exact hsel
  have hpn := prevNextOf_some (clusterPeers posts post) post h
  have hnavp := prevNextBlock_props _ _ hpn
  have henp := blockWithLinks_props (chars "More in " ++ post.cluster) _ hend
  simp only [updateContent, h, if_false]
  exact insertBlocks_markers _ _ _ _ henp.2 henp.1 hnavp.2 hnavp.1

/-! ## Idempotence of the link pass -/

theorem clusterPeers_pass (posts : List Post) (p : Post) :
    clusterPeers (applyInternalLinks posts) (passContent posts p) =
      (clusterPeers posts p).map (passContent posts) := by
  unfold clusterPeers applyInternalLinks
  rw [List.filter_map, List.filter_map]
  rfl

theorem updateContent_pass (posts : List Post) (p : Post) :
    updateContent (applyInternalLinks posts) (passContent posts p) =
      updateContent posts p := by
  by_cases h : clusterPeers posts p = []
  · have h2 : clusterPeers (applyInternalLinks posts) (passContent posts p) = [] := by
      rw [clusterPeers_pass, h]
      rfl
    have hl : updateContent (applyInternalLinks posts) (passContent posts p) =
        (passContent posts p).content := by
      unfold updateContent
      rw [if_pos h2]
    rw [hl]
    rfl
  · have h2 : clusterPeers (applyInternalLinks posts) (passContent posts p) ≠ [] := by
      rw [clusterPeers_pass]
      simp [h]
    have hm := updateContent_markers posts p h
    have hm1 : includesList (passContent posts p).content earlyMarker = true := hm.1
    have hm2 : includesList (passContent posts p).content navMarker = true := hm.2
    simp only [updateContent, h2, if_false]
    rw [insertBlocks_skip _ _ _ _ hm1 hm2]
    show (passContent posts p).content = updateContent posts p
    rfl

theorem passContent_pass (posts : List Post) (p : Post) :
    passContent (applyInternalLinks posts) (passContent posts p) =
      passContent posts p := by
  show ({ passContent posts p with
      content := updateContent (applyInternalLinks posts) (passContent posts p) } : Post) =
    passContent posts p
  rw [updateContent_pass]
  rfl

/-- Claim C3: applying `applyInternalLinks` a second time to a document
set already processed once by it leaves every document byte-for-byte
identical — every insertion (early related, end related, prev/next nav)
is suppressed because its marker is already present. Documents are the
parsed (frontmatter, body) pairs; the serializer is deterministic, so
equal pairs give byte-equal files. -/
theorem claim3_linkPass_idempotent (posts : List Post) :
    applyInternalLinks (applyInternalLinks posts) = applyInternalLinks posts := by
  have h1 : applyInternalLinks (applyInternalLinks posts) =
      posts.map ((passContent (applyInternalLinks posts)) ∘ (passContent posts)) := by
    show (posts.map (passContent posts)).map (passContent (applyInternalLinks posts)) = _
    exact List.map_map _ _ _
  rw [h1]
  exact List.map_congr_left (fun p _ => passContent_pass posts p)

/-- Claim C9: the similarity score is symmetric in its two arguments. -/
theorem claim9_similarity_symm (a b : Post) : similarity a b = similarity b a := by
  have hint : simInter a b = simInter b a := by
    unfold simInter
    rw [Finset.inter_comm]
  have hden : simDenom a b = simDenom b a := by
    unfold simDenom
    rw [hint, Nat.add_comm]
  unfold similarity
  rw [hint, hden]

/-- Claim C10: similarity is total on every pair of posts — the
denominator is floored at 1, and the score lies in [0, 1]. -/
theorem claim10_similarity_bounds (a b : Post) :
    1 ≤ simDenom a b ∧ 0 ≤ similarity a b ∧ similarity a b ≤ 1 := by
  have hd1 : 1 ≤ simDenom a b := le_max_left _ _
  have hIA : simInter a b ≤ (tokensOf a.keywords a.title).card :=
    Finset.card_le_card Finset.inter_subset_left
  have hIB : simInter a b ≤ (tokensOf b.keywords b.title).card :=
    Finset.card_le_card Finset.inter_subset_right
  have hid : simInter a b ≤ simDenom a b := by
    unfold simDenom
    have h2 := le_max_right 1
      ((tokensOf a.keywords a.title).card + (tokensOf b.keywords b.title).card -
        simInter a b)
    omega
  refine ⟨hd1, div_nonneg (Nat.cast_nonneg _) (Nat.cast_nonneg _), ?_⟩
  have hdpos : (0 : ℚ) < (simDenom a b : ℚ) := by
    have h0 : 0 < simDenom a b := by omega
    exact_mod_cast h0
  unfold similarity
  exact (div_le_one hdpos).2 (by exact_mod_cast hid)


/-- Claim C8: prev/next navigation comes from the lexicographic ordering
of all same-cluster slugs including the document itself — prev is the
element immediately before, next the element immediately after, each
absent at the respective boundary. Concretely, for the three-document
cluster with slugs alpha/beta/gamma: beta.prev = alpha, beta.next =
gamma, alpha.prev is absent (and alpha.next = beta), gamma.next is
absent (and gamma.prev = beta); in general the list the neighbours are
read from is a permutation of the cluster that is sorted by the slug
order. -/
theorem claim8_prevNext :
    prevNextOf [alphaPost, gammaPost] betaPost = (some alphaPost, some gammaPost) ∧
    (prevNextOf [betaPost, gammaPost] alphaPost).1 = none ∧
    (prevNextOf [betaPost, gammaPost] alphaPost).2 = some betaPost ∧
    (prevNextOf [alphaPost, betaPost] gammaPost).2 = none ∧
    (prevNextOf [alphaPost, betaPost] gammaPost).1 = some betaPost ∧
    (∀ (peers : List Post) (post : Post),
      List.Perm (sortedCluster peers post) (peers ++ [post])) ∧
    (∀ (peers : List Post) (post : Post),
      List.Pairwise (fun a b : Post => lexLe a.slug b.slug = true)
        (sortedCluster peers post)) := by
  refine ⟨by decide, by decide, by decide, by decide, by decide, ?_, ?_⟩
  · intro peers post
    exact sortLe_perm _ _
  · intro peers post
    exact sortLe_pairwise (fun a b : Post => lexLe a.slug b.slug)
      (fun a b c hab hbc => lexLe_trans a.slug b.slug c.slug hab hbc)
      (fun a b => lexLe_total a.slug b.slug)
      _

/-! ## Task planner -/

theorem planTasks_pos :
    ∀ (plan : List PlanCluster) (ci : Nat) (c : PlanCluster),
      plan[ci]? = some c →
      ∀ (ki : Nat) (k : String), c.keywords[ki]? = some k →
        (planTasks plan)[clusterOffset plan ci + ki]? =
          some { cluster := c.cluster, keyword := k } := by
  intro plan
  induction plan with
  | nil =>
      intro ci c hc
      simp at hc
  | cons d rest ih =>
      intro ci c hc ki k hk
      cases ci with
      | zero =>
          have hdc : d = c := by simpa using hc
          subst hdc
          have hki : ki < d.keywords.length := by
            rcases List.getElem?_eq_some_iff.1 hk with ⟨h, _⟩
            exact h
          have hoff : clusterOffset (d :: rest) 0 = 0 := by
            simp [clusterOffset]
          rw [hoff]
          have hflat : planTasks (d :: rest) =
              (d.keywords.map (fun k => ({ cluster := d.cluster, keyword := k } : GenTask))) ++
                planTasks rest := by
            simp [planTasks]
          rw [hflat]
          rw [List.getElem?_append_left (by simpa using hki)]
          simp [List.getElem?_map, hk]
      | succ ci0 =>
          have hc0 : rest[ci0]? = some c := by simpa using hc
          have hoff : clusterOffset (d :: rest) (ci0 + 1) =
              d.keywords.length + clusterOffset rest ci0 := by
            simp [clusterOffset, List.take_succ_cons]
          have hflat : planTasks (d :: rest) =
              (d.keywords.map (fun k => ({ cluster := d.cluster, keyword := k } : GenTask))) ++
                planTasks rest := by
            simp [planTasks]
          rw [hoff, hflat]
          rw [List.getElem?_append_right (by simp; omega)]
          have harith :
              d.keywords.length + clusterOffset rest ci0 + ki -
                (d.keywords.map
                  (fun k => ({ cluster := d.cluster, keyword := k } : GenTask))).length =
                clusterOffset rest ci0 + ki := by
            simp
            omega
          rw [harith]
          exact ih ci0 c hc0 ki k hk

/-- Claim C4: for every plan and maximum M, the emitted task list has at
most M tasks, is a prefix of the full cluster-major/keyword-minor
flattening (so the emitted tasks are exactly the first M pairs, with no
reordering), and the flattening places cluster ci's keyword ki at the
flattened position (number of keywords of earlier clusters) + ki. -/
theorem claim4_taskPlanner (plan : List PlanCluster) (maxPosts : Nat) :
    (targetTasks plan maxPosts).length ≤ maxPosts ∧
    (∀ i : Nat, i < maxPosts → (targetTasks plan maxPosts)[i]? = (planTasks plan)[i]?) ∧
    (∀ i : Nat, maxPosts ≤ i → (targetTasks plan maxPosts)[i]? = none) ∧
    (∀ (ci : Nat) (c : PlanCluster), plan[ci]? = some c →
      ∀ (ki : Nat) (k : String), c.keywords[ki]? = some k →
        (planTasks plan)[clusterOffset plan ci + ki]? =
          some { cluster := c.cluster, keyword := k }) := by
  refine ⟨?_, ?_, ?_, ?_⟩
  · unfold targetTasks
    rw [List.length_take]
    omega
  · intro i hi
    unfold targetTasks
    rw [List.getElem?_take]
    simp [hi]
  · intro i hi
    unfold targetTasks
    rw [List.getElem?_take]
    simp [Nat.not_lt.2 hi]
  · exact planTasks_pos plan

/-- Witness for C4 at a concrete plan: with M = 2 only the first two of
the three flattened tasks are kept, and cluster 1's keyword 0 sits at
flattened position 2. -/
theorem claim4_taskPlanner_witness :
    (targetTasks wPlan 2)[1]? = (planTasks wPlan)[1]? ∧
    (targetTasks wPlan 2)[2]? = none ∧
    (planTasks wPlan)[clusterOffset wPlan 1 + 0]? =
      some { cluster := "c2", keyword := "k3" } := by
  refine ⟨(claim4_taskPlanner wPlan 2).2.1 1 (by decide),
    (claim4_taskPlanner wPlan 2).2.2.1 2 (by decide), ?_⟩
  exact (claim4_taskPlanner wPlan 2).2.2.2 1 { cluster := "c2", keywords := ["k3"] }
    (by decide) 0 "k3" (by decide)

/-! ## Continuity context for part 3 -/

/-- Counterexample to claim C1: with a 6000-character part 1, the code
keeps the FIRST 6000 characters of `part1 + "\n\n" + part2` (dropping
part 2 entirely), which differs from the last-6000-characters window the
claim describes, so the most recent content is NOT retained. -/
theorem claim1_counterexample :
    contextForPart3 cexPart1 cexPart2 ≠
      lastWindow 6000 (cexPart1 ++ nl2 ++ cexPart2) := by
  have h1 : contextForPart3 cexPart1 cexPart2 = List.replicate 6000 'a' := by
    unfold contextForPart3 cexPart1
    rw [List.append_assoc]
    exact List.take_left' (List.length_replicate 6000 'a')
  have hlen : (cexPart1 ++ nl2 ++ cexPart2).length = 6003 := by
    rw [List.length_append, List.length_append,
      show cexPart1.length = 6000 from List.length_replicate 6000 'a']
    rfl
  have h2 : lastWindow 6000 (cexPart1 ++ nl2 ++ cexPart2) =
      List.replicate 5997 'a' ++ (nl2 ++ cexPart2) := by
    unfold lastWindow
    rw [hlen]
    show List.drop 3 (cexPart1 ++ nl2 ++ cexPart2) = _
    have hsplit : cexPart1 ++ nl2 ++ cexPart2 =
        List.replicate 3 'a' ++ (List.replicate 5997 'a' ++ (nl2 ++ cexPart2)) := by
      unfold cexPart1
      rw [show (6000 : Nat) = 3 + 5997 from rfl, List.replicate_add]
      simp only [List.append_assoc]
    rw [hsplit]
    exact List.drop_left' (List.length_replicate 3 'a')
  rw [h1, h2]
  intro heq
  have hb : 'b' ∈ List.replicate 5997 'a' ++ (nl2 ++ cexPart2) := by
    apply List.mem_append.2
    right
    apply List.mem_append.2
    right
    simp [cexPart2]
  rw [← heq] at hb
  have := List.eq_of_mem_replicate hb
  exact absurd this (by decide)

/-- Claim C1 as amended: the continuity context passed to part 3 is the
concatenation of parts 1 and 2 (joined with a blank line) truncated to
at most 6000 characters taken from the START of the concatenation — it
is a prefix of the concatenation, of length at most 6000, and equals the
whole concatenation whenever that fits the cap (so it is the oldest
content that is retained, and part 2 may be dropped entirely). -/
theorem claim1_amended (part1 part2 : List Char) :
    (contextForPart3 part1 part2).length ≤ 6000 ∧
    (∃ rest, contextForPart3 part1 part2 ++ rest = part1 ++ nl2 ++ part2) ∧
    ((part1 ++ nl2 ++ part2).length ≤ 6000 →
      contextForPart3 part1 part2 = part1 ++ nl2 ++ part2) := by
  refine ⟨?_, ?_, ?_⟩
  · unfold contextForPart3
    rw [List.length_take]
    omega
  · exact ⟨(part1 ++ nl2 ++ part2).drop 6000, List.take_append_drop _ _⟩
  · intro h
    unfold contextForPart3
    exact List.take_of_length_le h

/-- Witness for the amended C1 at a concrete short input: the cap is not
reached, so the context is the whole joined text. -/
theorem claim1_amended_witness :
    contextForPart3 (chars "x") (chars "y") = chars "x" ++ nl2 ++ chars "y" :=
  (claim1_amended (chars "x") (chars "y")).2.2 (by decide)

/-! ## Early/end insertion placement -/

set_option maxRecDepth 4000 in
/-- Counterexample to claim C5 as stated: for the document body
`"x\n## A\n## B"`, whose second heading line is not newline-terminated,
the early block is NOT inserted immediately after the second heading —
`indexOf("\n")` returns -1 and the `slice(0, -1)`/`slice(-1)` splice
puts the block before the final character, splitting the heading
`"## B"` (which no longer occurs in the output), instead of after it. -/
theorem claim5_counterexample :
    includesList cexPostA.content (chars "## B") = true ∧
    includesList (updateContent cexPosts cexPostA) (chars "## B") = false ∧
    updateContent cexPosts cexPostA ≠
      cexPostA.content ++ blockWithLinks (chars "You might also like") [cexPostB] ++
        prevNextBlock none (some cexPostB) := by
  refine ⟨by decide, by decide, by decide⟩

/-- Claim C5 as amended: for a body that does not yet carry the early
marker, (i) when a second `"\n## "` occurrence exists, the body lacks
the marker, and the heading line is newline-terminated at position `j`,
the early block is inserted exactly at `j` (immediately after the
heading) and the end block is suppressed; (ii) when there is no second
occurrence, the early block is skipped and the end block is appended at
the very end. In both cases at most one of the early/end blocks is
inserted, and the nav block is appended by `navStep` exactly when its
own marker is absent. (When the second heading line is unterminated,
the block is instead spliced in before the final character — see the
counterexample.) -/
theorem claim5_amended (content e en nav : List Char)
    (hc : includesList content earlyMarker = false)
    (he : includesList e earlyMarker = true)
    (hen : en ≠ []) :
    (∀ idx j, nthIndexOf content h2pat 2 = some idx →
        indexOfFrom content nlpat (idx + 1) = some j →
        insertBlocks content e en nav =
          navStep (content.take j ++ e ++ content.drop j) nav) ∧
    (nthIndexOf content h2pat 2 = none →
        insertBlocks content e en nav = navStep (content ++ en) nav) := by
  constructor
  · intro idx j hidx hj
    have hne : e ≠ [] := ne_nil_of_includes e earlyMarker earlyMarker_ne_nil he
    have hout1 : earlyStep content e = content.take j ++ e ++ content.drop j := by
      simp only [earlyStep, hne, if_false, hidx, hc, hj, Bool.false_eq_true]
    have hmark : includesList (content.take j ++ e ++ content.drop j) earlyMarker = true :=
      includes_insert_mid _ _ _ _ he
    unfold insertBlocks
    rw [hout1, endStep_skip _ _ hmark]
  · intro hn
    have hout1 : earlyStep content e = content := by
      simp only [earlyStep, hn, ite_self]
    have hout2 : endStep content en = content ++ en := by
      unfold endStep
      rw [if_neg hen, if_neg (by rw [hc]; simp)]
    unfold insertBlocks
    rw [hout1, hout2]

/-- Witness for the amended C5: in `"a\n## B\n## C\nd"` the second
`"\n## "` occurrence is at index 6 and the heading line ends at index
11, so the early block lands at position 11 and the end block is
suppressed. -/
theorem claim5_amended_witness :
    insertBlocks wContent wE wEn wNav =
      navStep (wContent.take 11 ++ wE ++ wContent.drop 11) wNav :=
  (claim5_amended wContent wE wEn wNav (by decide) (by decide) (by decide)).1
    6 11 (by decide) (by decide)

/-! ## Random-sample related-links pass -/

theorem swapIdx_length (l : List α) (i j : Nat) :
    (swapIdx l i j).length = l.length := by
  unfold swapIdx
  cases h1 : l[i]? with
  | none => simp
  | some a =>
      cases h2 : l[j]? with
      | none => simp
      | some b => simp [List.length_set]

theorem shuffleAux_length :
    ∀ (i : Nat) (a : List α) (js : List Nat),
      (shuffleAux a js i).length = a.length := by
  intro i
  induction i with
  | zero =>
      intro a js
      rfl
  | succ n ih =>
      intro a js
      show (shuffleAux (swapIdx a (n + 1) (js.headD 0 % (n + 2))) js.tail n).length = _
      rw [ih, swapIdx_length]

theorem shuffleJS_length (arr : List α) (js : List Nat) :
    (shuffleJS arr js).length = arr.length :=
  shuffleAux_length _ _ _

theorem relatedBlock_ne_nil (cluster : List Char) (picks : List Meta) :
    relatedBlock cluster picks ≠ [] := by
  unfold relatedBlock
  intro h
  rcases List.append_eq_nil.1 h with ⟨_, h2⟩
  exact absurd h2 (by decide)

/-- Counterexample to claim C6: the random-sample related-links pass has
no marker guard at all — re-running it on a document that already
contains its block appends the block a second time, changing the file. -/
theorem claim6_counterexample :
    addRelatedLinksDoc (chars "c") [cexMeta] []
        (relatedBlock (chars "c") [cexMeta]) ≠
      relatedBlock (chars "c") [cexMeta] := by
  decide

/-- Claim C6 as amended: the random-sample related-links pass is NOT
idempotent-by-marker — whenever the document has same-cluster peers the
block is appended unconditionally (no check of the existing content),
so every run grows the document by one more block. -/
theorem claim6_amended (cluster : List Char) (others : List Meta)
    (js : List Nat) (content : List Char) (h : others ≠ []) :
    addRelatedLinksDoc cluster others js content =
      content ++ relatedBlock cluster ((shuffleJS others js).take 3) ∧
    addRelatedLinksDoc cluster others js content ≠ content := by
  have hsh : (shuffleJS others js).length = others.length := shuffleJS_length others js
  have hpos : 0 < others.length := List.length_pos.2 h
  have hpicks : (shuffleJS others js).take 3 ≠ [] := by
    intro htk
    rcases List.take_eq_nil_iff.1 htk with h3 | h3
    · exact absurd h3 (by omega)
    · rw [h3] at hsh
      simp at hsh
      omega
  have heq : addRelatedLinksDoc cluster others js content =
      content ++ relatedBlock cluster ((shuffleJS others js).take 3) := by
    unfold addRelatedLinksDoc
    rw [if_neg hpicks]
  refine ⟨heq, ?_⟩
  rw [heq]
  intro hbad
  have hlen := congrArg List.length hbad
  rw [List.length_append] at hlen
  have hblk : (relatedBlock cluster ((shuffleJS others js).take 3)).length = 0 := by
    omega
  exact relatedBlock_ne_nil _ _ (List.length_eq_zero.1 hblk)

/-- Witness for the amended C6 at a concrete cluster: the block is
appended to a body that did not contain it. -/
theorem claim6_amended_witness :
    addRelatedLinksDoc (chars "c") [cexMeta] [] (chars "z") =
      chars "z" ++ relatedBlock (chars "c") ((shuffleJS [cexMeta] []).take 3) :=
  (claim6_amended (chars "c") [cexMeta] [] (chars "z") (by decide)).1

/-! ## Frontmatter header across the later stages -/

set_option maxRecDepth 4000 in
/-- Counterexample to claim C7: the Assembler's JSON-style header
(`title: "Cat Toys"`) heads the file it wrote, but after the link pass
the file is re-serialized from the parsed frontmatter by the external
YAML dumper (`title: Cat Toys`), so the header written by the Assembler
no longer appears at the top of the file byte-for-byte. -/
theorem claim7_counterexample :
    List.isPrefixOf (stringifyFrontmatter fmCex) c7Orig = true ∧
    List.isPrefixOf (stringifyFrontmatter fmCex)
        (fileAfterLinkPass c7Posts c7PostA c7Orig) = false := by
  refine ⟨by decide, by decide⟩

/-- Claim C7 as amended: the related-links pass only appends below the
existing bytes (so the header it found stays byte-unchanged), while the
Link Graph Builder rewrites the whole file as a re-serialization of the
SAME parsed frontmatter followed by the updated body — the metadata is
preserved, but its byte rendering is the serializer's, not the
Assembler's (files without same-cluster peers are not rewritten at
all). -/
theorem claim7_amended :
    (∀ (cluster : List Char) (others : List Meta) (js : List Nat) (content : List Char),
      ∃ suffix, addRelatedLinksDoc cluster others js content = content ++ suffix) ∧
    (∀ (posts : List Post) (post : Post) (orig : List Char),
      fileAfterLinkPass posts post orig = orig ∨
        ∃ body, fileAfterLinkPass posts post orig = yamlHeader post.data ++ body) := by
  constructor
  · intro cluster others js content
    unfold addRelatedLinksDoc
    by_cases hp : (shuffleJS others js).take 3 = []
    · exact ⟨[], by rw [if_pos hp, List.append_nil]⟩
    · exact ⟨relatedBlock cluster ((shuffleJS others js).take 3), by rw [if_neg hp]⟩
  · intro posts post orig
    unfold fileAfterLinkPass
    by_cases hp : clusterPeers posts post = []
    · left
      rw [if_pos hp]
    · right
      rw [if_neg hp]
      unfold matterStringify
      refine ⟨updateContent posts post ++
        (if updateContent posts post ≠ [] ∧
            (updateContent posts post).getLast? = some '\n'
          then [] else chars "\n"), ?_⟩
      rw [List.append_assoc]

/-! ## Bounded concurrency executor -/

/-- Claim C2 evaluated at the failing schedule: with `max = 1` and three
callers, the schedule [A acquires; B queues; A finishes and wakes B; C
calls run before B's wake-up microtask executes; B resumes] leaves TWO
callers inside their bodies — the woken waiter re-enters without
re-checking the count, so the configured bound is exceeded. -/
theorem claim2_semaphore_overshoot :
    (semRun 1 3 overshootSched).maxSlots = 1 ∧
    (semRun 1 3 overshootSched).count = 2 ∧
    bodiesRunning (semRun 1 3 overshootSched) = 2 := by
  refine ⟨rfl, by decide, by decide⟩
